import Mathlib

set_option maxRecDepth 8000

/-!
# Verification of the document-decomposition core of `src/App.tsx`

Shallow embedding of the pure decomposition logic of the study-dose
application: the generic structured-text parser (`parseStructuredText`),
the PDF page-element pipeline (`extractTextFromPdf` and its block
finalizer), the PDF content-stream interpreter (transform stack and
image normalization), and the DOCX block-walk adapter
(`extractTextFromDocx`).

Modelling conventions:
* JS numbers are modelled as `ℚ` (the code only adds, subtracts,
  multiplies and compares page coordinates).
* JS strings are modelled as Lean `String`, with the handful of
  JS string primitives the code uses (`trim`, `split`, regex tests)
  re-implemented over `List Char`; the JS `\s` class is approximated
  by ASCII whitespace.
* External collaborators (pdf.js object resolution, canvas
  `toDataURL`, mammoth HTML conversion, the DOM) sit at the model
  boundary: their outputs are inputs of the modelled functions.
-/

namespace Estudos

/-! ## String primitives -/

/-- Whitespace test backing the JS `\s` class and `trim`. -/
def wsChar (c : Char) : Bool := c.isWhitespace

/-- Character-list form of JS `String.prototype.trim`. -/
def trimChars (l : List Char) : List Char :=
  ((l.dropWhile wsChar).reverse.dropWhile wsChar).reverse

/-- Model of JS `s.trim()`. -/
def jsTrim (s : String) : String := String.mk (trimChars s.toList)

/-- Split of a character list on a single separator character,
JS `s.split(sep)` semantics (never returns an empty list). -/
def splitCharAux (sep : Char) : List Char → List Char → List (List Char)
  | [], acc => [acc.reverse]
  | c :: rest, acc =>
    if c = sep then acc.reverse :: splitCharAux sep rest []
    else splitCharAux sep rest (c :: acc)

/-- Model of JS `s.split(sep)` for a one-character separator. -/
def jsSplitChar (sep : Char) (s : String) : List String :=
  (splitCharAux sep s.toList []).map String.mk

/-- Split on the literal two-character separator `"\n\n"`,
JS `s.split('\n\n')` semantics (leftmost, non-overlapping). -/
def splitNNAux : List Char → List Char → List (List Char)
  | [], acc => [acc.reverse]
  | [c], acc => [(c :: acc).reverse]
  | c :: c2 :: rest, acc =>
    if c = '\n' ∧ c2 = '\n' then acc.reverse :: splitNNAux rest []
    else splitNNAux (c2 :: rest) (c :: acc)

/-- Model of JS `s.split('\n\n')`. -/
def splitNN (s : String) : List String :=
  (splitNNAux s.toList []).map String.mk

/-- Index of the last `'\n'` in a character list, if any. -/
def lastNlIdx : List Char → Option Nat
  | [] => none
  | c :: rest =>
    match lastNlIdx rest with
    | some j => some (j + 1)
    | none => if c = '\n' then some 0 else none

/-- Split on the regex `\n\s*\n` (greedy, leftmost), JS
`s.split(/\n\s*\n/)` semantics.  At a `'\n'` the greedy `\s*` extends
the match to the last newline of the following whitespace run.  The
`fuel` argument (initialized to the list length) makes the recursion
structural; it never runs out because each step consumes at least one
character. -/
def splitBlankAux : Nat → List Char → List Char → List (List Char)
  | _, [], acc => [acc.reverse]
  | 0, l, acc => [acc.reverse ++ l]
  | fuel + 1, c :: rest, acc =>
    if c = '\n' then
      match lastNlIdx (rest.takeWhile wsChar) with
      | some j => acc.reverse :: splitBlankAux fuel (rest.drop (j + 1)) []
      | none => splitBlankAux fuel rest (c :: acc)
    else splitBlankAux fuel rest (c :: acc)

/-- Model of JS `s.split(/\n\s*\n/)`. -/
def splitBlank (s : String) : List String :=
  (splitBlankAux s.toList.length s.toList []).map String.mk

/-- JS `\w` (word character). -/
def isWordChar (c : Char) : Bool := c.isAlphanum || c = '_'

/-- Bullet glyphs of the list-item pattern `[•●▪•*-]`
(`•` is the same code point as `•`). -/
def bulletChar (c : Char) : Bool :=
  c = '•' || c = '●' || c = '▪' || c = '*' || c = '-'

/-- Model of the list-item regex test
`/^\s*([•●▪•*-]|\d+\.|\w\))\s/.test(s)`. -/
def isListItem (s : String) : Bool :=
  let r := s.toList.dropWhile wsChar
  (match r with
   | c :: c2 :: _ => bulletChar c && wsChar c2
   | _ => false) ||
  (let ds := r.takeWhile Char.isDigit
   (!ds.isEmpty) && (match r.drop ds.length with
     | '.' :: c2 :: _ => wsChar c2
     | _ => false)) ||
  (match r with
   | c :: ')' :: c2 :: _ => isWordChar c && wsChar c2
   | _ => false)

/-- `p` occurs at the start of `l`. -/
def startsWithChars : List Char → List Char → Bool
  | [], _ => true
  | _ :: _, [] => false
  | p :: ps, c :: cs => p = c && startsWithChars ps cs

/-- `pat` occurs somewhere inside `l` (substring test). -/
def containsSub (pat : List Char) : List Char → Bool
  | [] => startsWithChars pat []
  | c :: cs => startsWithChars pat (c :: cs) || containsSub pat cs

/-- Model of JS `s.startsWith(pat)`. -/
def jsStartsWith (s pat : String) : Bool :=
  startsWithChars pat.toList s.toList

/-- Leading-whitespace width of a line:
JS `line.match(/^\s*/)?.[0].length ?? 0`. -/
def getIndentation (line : String) : Nat :=
  (line.toList.takeWhile wsChar).length

/-! ## Generic structured-text parser (`parseStructuredText`) -/

/-- Heading-stack entry of the level-based pipelines
(Markdown case of `parseStructuredText`, and `extractTextFromDocx`):
`{ level, text }`. -/
structure LevelHeading where
  level : Nat
  text : String
deriving DecidableEq, Repr

/-- Breadcrumb of a level-based heading stack:
`headingPath.map(h => h.text).join(' > ')`. -/
def breadcrumbOfLevels (path : List LevelHeading) : String :=
  String.intercalate " > " (path.map (fun h => h.text))

/-- Heading-stack update of the Markdown case of `parseStructuredText`:
`while (top.level >= level) pop; push({level, text})`.  The stack is
kept in array order (last element = top of stack), so the `while`-pop
from the array end is a `dropWhile` on the reversed list. -/
def mdHeadingPush (path : List LevelHeading) (level : Nat) (text : String) :
    List LevelHeading :=
  (path.reverse.dropWhile (fun h => level ≤ h.level)).reverse ++ [⟨level, text⟩]

/-- Heading level of a line:
`line.trim().match(/^(#+)\s/)` run length, `0` when no match. -/
def getHeadingLevel (line : String) : Nat :=
  let t := trimChars line.toList
  let hs := (t.takeWhile (fun c => c = '#')).length
  if hs = 0 then 0 else
  match t.drop hs with
  | c :: _ => if wsChar c then hs else 0
  | [] => 0

/-- Heading text of a heading line:
`line.trim().replace(/^#+\s/, '')` (drops the hash run and one
whitespace character). -/
def stripHeadingMark (line : String) : String :=
  let t := trimChars line.toList
  let hs := (t.takeWhile (fun c => c = '#')).length
  if hs = 0 then String.mk t else
  match t.drop hs with
  | c :: rest => if wsChar c then String.mk rest else String.mk t
  | [] => String.mk t

/-- Mutable state of the Markdown case of `parseStructuredText`. -/
structure MdState where
  doses : List String
  headingPath : List LevelHeading
  currentContentLines : List String
deriving DecidableEq, Repr

/-- `processContentBlock` of `parseStructuredText`: split the buffered
content on blank-line boundaries; an all-list-item block becomes one
dose per line, any other block one dose; each dose is prefixed with
the breadcrumb when the heading stack is non-empty. -/
def processContentBlock (st : MdState) : MdState :=
  if st.currentContentLines = [] then st else
  let content := jsTrim (String.intercalate "\n" st.currentContentLines)
  if content = "" then { st with currentContentLines := [] } else
  let blocks := (splitBlank content).filter (fun b => jsTrim b ≠ "")
  let newDoses := blocks.foldl (fun ds block =>
    let blockLines := jsSplitChar '\n' block
    let isList := blockLines.all (fun line => isListItem (jsTrim line))
    let items := if isList then blockLines.filter (fun li => jsTrim li ≠ "")
                 else [block]
    ds ++ items.map (fun item =>
      if st.headingPath.length > 0 then
        breadcrumbOfLevels st.headingPath ++ "\n\n" ++ item
      else item)) st.doses
  { st with doses := newDoses, currentContentLines := [] }

/-- One line of the Markdown loop of `parseStructuredText`: a heading
line flushes the content buffer and updates the heading stack, any
other line is buffered. -/
def mdStep (st : MdState) (line : String) : MdState :=
  let level := getHeadingLevel line
  if level > 0 then
    let st' := processContentBlock st
    let newPath := mdHeadingPush st'.headingPath level (stripHeadingMark line)
    { st' with headingPath := newPath }
  else
    { st with currentContentLines := st.currentContentLines ++ [line] }

/-- CASE 2 of `parseStructuredText` (non-indented text): Markdown
heading walk, final flush, and the whole-input fallback when no dose
was produced. -/
def parseCase2 (trimmedText : String) : List String :=
  let markdownLines := jsSplitChar '\n' trimmedText
  let st := markdownLines.foldl mdStep ⟨[], [], []⟩
  let st' := processContentBlock st
  if st'.doses.length > 0 then st'.doses else [trimmedText]

/-- Backward ancestor walk of CASE 1 of `parseStructuredText`, over
the reversed prefix before a branch start; returns the collected
ancestors in selection order (the code's `unshift` reverses them). -/
def collectAncestorsRev : List (String × Nat) → Nat → List String
  | [], _ => []
  | (t, ind) :: rest, cur =>
    if ind < cur then t :: collectAncestorsRev rest ind
    else collectAncestorsRev rest cur

/-- Model of `parseStructuredText` (the generic structured-text
parser): indentation-outline decomposition when any line is indented,
otherwise Markdown-style heading decomposition, with the whole trimmed
input as a final fallback dose. -/
def parseStructuredText (text : String) : List String :=
  let trimmedText := jsTrim text
  if trimmedText = "" then [] else
  let lines := jsSplitChar '\n' trimmedText
  let hasIndentation := lines.any (fun line => getIndentation line > 0)
  if hasIndentation then
    let lineData := lines.map (fun line => (line, getIndentation line))
    let indentedLines := lineData.filter (fun l => 0 < l.2)
    match indentedLines.map (fun l => l.2) with
    | [] => lines
    | i0 :: is =>
      let firstBranchIndent := is.foldl min i0
      let branchStartIndices := (List.range lineData.length).filter
        (fun i => (lineData.getD i ("", 0)).2 = firstBranchIndent)
      if branchStartIndices.length > 0 then
        let branchEnds := branchStartIndices.drop 1 ++ [lineData.length]
        (branchStartIndices.zip branchEnds).map (fun se =>
          let s := se.1
          let branchLines := ((lineData.drop s).take (se.2 - s)).map
            (fun l => l.1)
          let ancestors := (collectAncestorsRev ((lineData.take s).reverse)
            (lineData.getD s ("", 0)).2).reverse
          String.intercalate "\n" (ancestors ++ branchLines))
      else parseCase2 trimmedText
  else parseCase2 trimmedText

/-! ## PDF page-element pipeline (`extractTextFromPdf`) -/

/-- Heading-stack entry of the PDF pipeline: `{ height, text }`
(glyph height is the nesting proxy). -/
structure PdfHeading where
  height : ℚ
  text : String
deriving DecidableEq, Repr

/-- A page element of the PDF pipeline: a reconstructed text line or a
normalized embedded image. -/
inductive PageElement where
  | text (text : String) (x y height : ℚ) (fontName : Option String)
  | image (dataUrl : String) (y width height : ℚ)
deriving DecidableEq, Repr

/-- Y coordinate of a page element, the key of the Step-3 sort. -/
def elemY : PageElement → ℚ
  | .text _ _ y _ _ => y
  | .image _ y _ _ => y

/-- Stable insertion for the descending-Y sort
(`pageElements.sort((a, b) => b.y - a.y)`): a later element with equal
Y stays after earlier ones. -/
def insertDescY (e : PageElement) : List PageElement → List PageElement
  | [] => [e]
  | f :: rest =>
    if elemY e ≤ elemY f then f :: insertDescY e rest else e :: f :: rest

/-- Step 3 of the PDF pipeline: sort all page elements by descending Y
(stable, as JS `Array.prototype.sort`). -/
def sortDescY (elements : List PageElement) : List PageElement :=
  elements.foldl (fun acc e => insertDescY e acc) []

/-- Bold-style hint: `fontName && /bold|heavy|black/i.test(fontName)`. -/
def isBoldFont (fontName : Option String) : Bool :=
  match fontName with
  | none => false
  | some f =>
    let l := f.toList.map Char.toLower
    containsSub "bold".toList l || containsSub "heavy".toList l ||
      containsSub "black".toList l

/-- One step of the prose fold of `finalizeBlock`
(`currentBlockLines.reduce`): hyphenation repair, else single-space
join. -/
def proseStep (acc line : String) : String :=
  let lineText := jsTrim line
  let accTrimmed := jsTrim acc
  if accTrimmed.toList.getLast? = some '-' then
    String.mk accTrimmed.toList.dropLast ++ lineText
  else if acc = "" then lineText
  else acc ++ " " ++ lineText

/-- Content text computed by `finalizeBlock` for a block's lines: a
block at least half of whose lines are list items is joined line by
line, any other block is folded into one paragraph by `proseStep` and
trimmed.  (`count >= lines.length / 2` over JS real division is
`2 * count ≥ lines.length`.) -/
def finalizeBlockText (blockLines : List String) : String :=
  let listItemsCount :=
    (blockLines.filter (fun line => isListItem (jsTrim line))).length
  let isList := listItemsCount > 0 && 2 * listItemsCount ≥ blockLines.length
  if isList then String.intercalate "\n" (blockLines.map jsTrim)
  else jsTrim (blockLines.foldl proseStep "")

/-- Breadcrumb of the PDF heading stack. -/
def breadcrumbOfHeights (path : List PdfHeading) : String :=
  String.intercalate " > " (path.map (fun h => h.text))

/-- Mutable state of the Step-4 element loop of `extractTextFromPdf`
(`headingPath`, `currentBlockLines`, `lastLine`, and the document-wide
`doses` array). -/
structure PageState where
  headingPath : List PdfHeading
  currentBlockLines : List String
  lastLine : Option (ℚ × ℚ)
  doses : List String
deriving DecidableEq, Repr

/-- `finalizeBlock` of `extractTextFromPdf`: emit the open block (if
its finalized text is non-empty) as one breadcrumb-prefixed dose and
clear the block buffer. -/
def finalizeBlock (st : PageState) : PageState :=
  if st.currentBlockLines = [] then st else
  let contentText := finalizeBlockText st.currentBlockLines
  if contentText = "" then { st with currentBlockLines := [] } else
  let breadcrumb := breadcrumbOfHeights st.headingPath
  let dose := if breadcrumb = "" then contentText
              else breadcrumb ++ "\n\n" ++ contentText
  { st with doses := st.doses ++ [dose], currentBlockLines := [] }

/-- Heading-stack update of the PDF pipeline:
`while (top.height <= height) pop; push({height, text})`, the stack in
array order (last element = top). -/
def pdfHeadingPush (path : List PdfHeading) (height : ℚ) (text : String) :
    List PdfHeading :=
  (path.reverse.dropWhile (fun h => h.height ≤ height)).reverse ++
    [⟨height, text⟩]

/-- JS `trimmedText.split(' ').length` (whitespace tokens bound of the
heading test). -/
def countSpaceTokens (s : String) : Nat :=
  (splitCharAux ' ' s.toList []).length

/-- JS `/[.!?]$/.test(s)`. -/
def endsWithSentencePunct (s : String) : Bool :=
  match s.toList.getLast? with
  | some c => c = '.' || c = '!' || c = '?'
  | none => false

/-- One element of the Step-4 loop of `extractTextFromPdf`: classify a
text line (list item / likely heading / body, new-block gap test),
update the heading stack or the open block, and turn images into
immediate doses that break text flow. -/
def processElement (st : PageState) (e : PageElement) : PageState :=
  match e with
  | .text text x y height fontName =>
    let isBold := isBoldFont fontName
    let trimmedText := jsTrim text
    let isListItemLine := isListItem trimmedText
    let isLikelyHeading := !isListItemLine
      && trimmedText.length > 2 && trimmedText.length < 100
      && countSpaceTokens trimmedText < 15
      && !endsWithSentencePunct trimmedText
      && (isBold || x < 80)
    let isNewBlock := match st.lastLine with
      | none => true
      | some (ly, lh) => (ly - lh) - y > height * (8 / 10)
    if isLikelyHeading && isNewBlock then
      let st' := finalizeBlock st
      { st' with headingPath := pdfHeadingPush st'.headingPath height (jsTrim text),
                 lastLine := some (y, height) }
    else
      let st' := if isNewBlock then finalizeBlock st else st
      { st' with currentBlockLines := st'.currentBlockLines ++ [text],
                 lastLine := some (y, height) }
  | .image dataUrl _ _ _ =>
    let st' := finalizeBlock st
    let breadcrumb := breadcrumbOfHeights st'.headingPath
    let imageDose := if breadcrumb = ""
      then "![Imagem do PDF](" ++ dataUrl ++ ")"
      else breadcrumb ++ "\n\n" ++ "![Imagem do PDF](" ++ dataUrl ++ ")"
    { st' with doses := st'.doses ++ [imageDose], lastLine := none }

/-- Steps 3–4 of `extractTextFromPdf` for one page: sort the page's
elements by descending Y and run the element loop with a fresh
`headingPath`, `currentBlockLines` and `lastLine` (these are declared
inside the page loop), appending to the document-wide dose list. -/
def processPdfPage (docDoses : List String) (elements : List PageElement) :
    List String :=
  let st := (sortDescY elements).foldl processElement ⟨[], [], none, docDoses⟩
  (finalizeBlock st).doses

/-- Dose extraction of `extractTextFromPdf` over the per-page element
sequences, pages processed strictly in order. -/
def extractTextFromPdf (pages : List (List PageElement)) : List String :=
  pages.foldl processPdfPage []

/-! ## PDF content-stream interpreter (Step 2 of `extractTextFromPdf`) -/

/-- A raster image as resolved from `page.objs.get`: dimensions, raw
byte data, and the optional colorspace name. -/
structure PdfRasterImage where
  width : Nat
  height : Nat
  data : List Nat
  colorspaceName : Option String
deriving DecidableEq, Repr

/-- The content-stream operators the interpreter reacts to.  A
`paintImage none` models an unresolved raster
(`if (!img || !img.data) continue`). -/
inductive PdfOperator where
  | save
  | restore
  | transform (m : List ℚ)
  | paintImage (img : Option PdfRasterImage)
deriving DecidableEq, Repr

/-- The 2x3 identity matrix `[1, 0, 0, 1, 0, 0]`. -/
def identityMatrix : List ℚ := [1, 0, 0, 1, 0, 0]

/-- `transformMatrix` of `extractTextFromPdf`: standard 2x3 affine
composition over 6-entry arrays. -/
def transformMatrix (m1 m2 : List ℚ) : List ℚ :=
  [m1.getD 0 0 * m2.getD 0 0 + m1.getD 2 0 * m2.getD 1 0,
   m1.getD 1 0 * m2.getD 0 0 + m1.getD 3 0 * m2.getD 1 0,
   m1.getD 0 0 * m2.getD 2 0 + m1.getD 2 0 * m2.getD 3 0,
   m1.getD 1 0 * m2.getD 2 0 + m1.getD 3 0 * m2.getD 3 0,
   m1.getD 0 0 * m2.getD 4 0 + m1.getD 2 0 * m2.getD 5 0 + m1.getD 4 0,
   m1.getD 1 0 * m2.getD 4 0 + m1.getD 3 0 * m2.getD 5 0 + m1.getD 5 0]

/-- RGB-to-RGBA expansion (alpha forced opaque). -/
def rgbToRgba : List Nat → List Nat
  | r :: g :: b :: rest => r :: g :: b :: 255 :: rgbToRgba rest
  | _ => []

/-- Grayscale-to-RGBA expansion (gray replicated, alpha opaque). -/
def grayToRgba : List Nat → List Nat
  | [] => []
  | g :: rest => g :: g :: g :: 255 :: grayToRgba rest

/-- Raster normalization of the image-paint handler: RGB (3 bytes per
pixel), RGBA (4 bytes per pixel) and grayscale (1 byte per pixel) are
accepted, in that testing order; any other byte layout is unsupported
(`formatSupported` stays false). -/
def normalizeRgba (width height : Nat) (data : List Nat) : Option (List Nat) :=
  if data.length = width * height * 3 then some (rgbToRgba data)
  else if data.length = width * height * 4 then some data
  else if data.length = width * height then some (grayToRgba data)
  else none

/-- An image element produced by the interpreter (the canvas
`toDataURL` encoding is an external collaborator; the normalized RGBA
bytes and the Y translation of the current transform are kept). -/
structure InterpImageElem where
  rgba : List Nat
  y : ℚ
  width : Nat
  height : Nat
deriving DecidableEq, Repr

/-- State of the Step-2 operator loop: the transform-matrix stack, the
current matrix, and the image elements and warnings produced so far. -/
structure InterpState where
  matrixStack : List (List ℚ)
  currentMatrix : List ℚ
  imageElements : List InterpImageElem
  warnings : List String
deriving DecidableEq, Repr

/-- The unsupported-colorspace warning, naming the page and the
colorspace (`img.colorspace?.name || 'desconhecido'`). -/
def unsupportedColorspaceWarning (pageNum : Nat)
    (colorspaceName : Option String) : String :=
  "Não foi possível processar uma imagem na página " ++ toString pageNum ++
    ". O formato de cor (" ++ colorspaceName.getD "desconhecido" ++
    ") não é suportado."

/-- One operator of the Step-2 loop: `save` pushes the current matrix,
`restore` pops it (JS `pop() || [1, 0, 0, 1, 0, 0]` falls back to the
identity on an empty stack), `transform` composes, and an image paint
either appends a normalized image element tagged with the current Y
translation or appends one unsupported-colorspace warning. -/
def interpStep (pageNum : Nat) (st : InterpState) (op : PdfOperator) :
    InterpState :=
  match op with
  | .save => { st with matrixStack := st.matrixStack ++ [st.currentMatrix] }
  | .restore =>
    match st.matrixStack.getLast? with
    | some m => { st with matrixStack := st.matrixStack.dropLast,
                          currentMatrix := m }
    | none => { st with currentMatrix := identityMatrix }
  | .transform m => { st with currentMatrix := transformMatrix st.currentMatrix m }
  | .paintImage none => st
  | .paintImage (some img) =>
    match normalizeRgba img.width img.height img.data with
    | some rgba =>
      { st with imageElements := st.imageElements ++
          [⟨rgba, st.currentMatrix.getD 5 0, img.width, img.height⟩] }
    | none =>
      { st with warnings := st.warnings ++
          [unsupportedColorspaceWarning pageNum img.colorspaceName] }

/-- The Step-2 operator loop over a page's operator list. -/
def runInterp (pageNum : Nat) (st : InterpState) (ops : List PdfOperator) :
    InterpState :=
  ops.foldl (interpStep pageNum) st

/-! ## DOCX adapter (`extractTextFromDocx`) -/

/-- A top-level block element of the mammoth-produced HTML body, as
the DOCX walk distinguishes them: `H1`–`H6`, `P`, `UL`, `OL`, `IMG`,
or any other tag (carrying its flattened text content).  List elements
carry their `LI` children's text contents in order. -/
inductive DocxElement where
  | heading (level : Nat) (textContent : String)
  | para (textContent : String)
  | unorderedList (items : List String)
  | orderedList (items : List String)
  | image (src : String)
  | other (textContent : String)
deriving DecidableEq, Repr

/-- Mutable state of the DOCX walk: the emitted doses and the heading
stack. -/
structure DocxState where
  doses : List String
  headingPath : List LevelHeading
deriving DecidableEq, Repr

/-- Heading-stack update of the DOCX walk:
`while (top.level >= level) pop; push({level, text})`, stack in array
order. -/
def docxHeadingPush (path : List LevelHeading) (level : Nat) (text : String) :
    List LevelHeading :=
  (path.reverse.dropWhile (fun h => level ≤ h.level)).reverse ++ [⟨level, text⟩]

/-- `createDose` of the DOCX walk: skip empty content, otherwise push
the breadcrumb-prefixed dose. -/
def docxCreateDose (st : DocxState) (content : String) : DocxState :=
  if content = "" then st else
  let breadcrumb := breadcrumbOfLevels st.headingPath
  let doseText := if breadcrumb = "" then content
                  else breadcrumb ++ "\n\n" ++ content
  { st with doses := st.doses ++ [doseText] }

/-- The `LI` rewriting of a `UL`/`OL` element: each non-empty item is
prefixed with `* ` or with its original index as `N. ` (empty items
are dropped after numbering, as the code numbers by the original
index). -/
def docxListItems (ordered : Bool) (items : List String) : List String :=
  items.enum.filterMap (fun p =>
    let liContent := jsTrim p.2
    if liContent = "" then none
    else some ((if ordered then toString (p.1 + 1) ++ ". " else "* ") ++
      liContent))

/-- One element of the DOCX walk: headings with non-empty trimmed text
update the heading stack (empty ones are skipped entirely), paragraphs
and unknown tags become one trimmed dose, lists one rewritten dose,
and inline-data images one image dose. -/
def docxStep (st : DocxState) (el : DocxElement) : DocxState :=
  match el with
  | .heading level textContent =>
    let headingText := jsTrim textContent
    if headingText = "" then st
    else { st with headingPath := docxHeadingPush st.headingPath level headingText }
  | .para t => docxCreateDose st (jsTrim t)
  | .unorderedList items =>
    let lis := docxListItems false items
    if lis.length > 0 then docxCreateDose st (String.intercalate "\n" lis)
    else st
  | .orderedList items =>
    let lis := docxListItems true items
    if lis.length > 0 then docxCreateDose st (String.intercalate "\n" lis)
    else st
  | .image src =>
    if jsStartsWith src "data:image" then
      docxCreateDose st ("![Imagem do DOCX](" ++ src ++ ")")
    else st
  | .other t => docxCreateDose st (jsTrim t)

/-- The no-structure fallback warning of `extractTextFromDocx`. -/
def noStructureWarning : String :=
  "Não foi possível identificar uma estrutura clara (títulos, parágrafos). O texto foi dividido por parágrafos."

/-- The no-text warning of `extractTextFromDocx`. -/
def noTextWarning : String :=
  "Nenhum texto foi encontrado no documento."

/-- Model of `extractTextFromDocx` after mammoth conversion and HTML
parsing: walk the body's block elements, then — only when the walk
produced no dose AND mammoth produced no warning — fall back to
splitting the body's raw text on `'\n\n'`, or report that no text was
found. -/
def extractTextFromDocx (els : List DocxElement) (bodyText : String)
    (mammothWarnings : List String) : List String × List String :=
  let st := els.foldl docxStep ⟨[], []⟩
  let doses := st.doses
  if doses.length = 0 ∧ mammothWarnings.length = 0 then
    if jsTrim bodyText ≠ "" then
      let rawTextDoses := (splitNN bodyText).filter (fun p => jsTrim p ≠ "")
      if rawTextDoses.length > 0 then
        (rawTextDoses, mammothWarnings ++ [noStructureWarning])
      else (doses, mammothWarnings ++ [noTextWarning])
    else (doses, mammothWarnings ++ [noTextWarning])
  else (doses, mammothWarnings)

/-! ## Helper lemmas -/

/-- `splitCharAux` never returns the empty list. -/
theorem splitCharAux_ne_nil (sep : Char) :
    ∀ (l acc : List Char), splitCharAux sep l acc ≠ []
  | [], acc => by simp [splitCharAux]
  | c :: rest, acc => by
    rw [splitCharAux]
    split
    · simp
    · exact splitCharAux_ne_nil sep rest (c :: acc)

/-- `jsSplitChar` never returns the empty list. -/
theorem jsSplitChar_ne_nil (sep : Char) (s : String) :
    jsSplitChar sep s ≠ [] := by
  unfold jsSplitChar
  simp only [ne_eq, List.map_eq_nil_iff]
  exact splitCharAux_ne_nil sep s.toList []

/-- The fallback branch makes `parseCase2` total: it never returns the
empty list. -/
theorem parseCase2_ne_nil (tt : String) : parseCase2 tt ≠ [] := by
  simp only [parseCase2]
  split
  · next h => exact List.ne_nil_of_length_pos h
  · simp

/-- A zip against a long-enough second list keeps a non-empty first
list non-empty (length form used for the branch list of CASE 1). -/
theorem map_zip_ne_nil {α β γ : Type} (f : α × β → γ) (l : List α)
    (ends : List β) (hl : 0 < l.length) (he : l.length ≤ ends.length) :
    (l.zip ends).map f ≠ [] := by
  apply List.ne_nil_of_length_pos
  rw [List.length_map, List.length_zip]
  omega

/-! ## Claim theorems -/

/-- Claim C2: for every input string whose trimmed form is non-empty,
`parseStructuredText` returns at least one dose — it never returns an
empty list for non-empty input — and when no structure is found
(no indentation anywhere and the heading walk emitted no dose) it
falls back to the entire trimmed input as one single dose. -/
theorem parseStructuredText_ne_nil_of_trim_ne_empty :
    (∀ text : String, jsTrim text ≠ "" → parseStructuredText text ≠ []) ∧
    (∀ text : String, jsTrim text ≠ "" →
      (jsSplitChar '\n' (jsTrim text)).any
        (fun line => getIndentation line > 0) = false →
      (processContentBlock
        ((jsSplitChar '\n' (jsTrim text)).foldl mdStep ⟨[], [], []⟩)).doses = [] →
      parseStructuredText text = [jsTrim text]) := by
  constructor
  · intro text h
    unfold parseStructuredText
    simp only [if_neg h]
    split
    · split
      · exact jsSplitChar_ne_nil '\n' (jsTrim text)
      · split
        · next hlen =>
          apply map_zip_ne_nil _ _ _ hlen
          simp only [List.length_append, List.length_drop, List.length_cons,
            List.length_nil]
          omega
        · exact parseCase2_ne_nil (jsTrim text)
    · exact parseCase2_ne_nil (jsTrim text)
  · intro text h hnoind hnodoses
    unfold parseStructuredText
    simp only [if_neg h, hnoind, Bool.false_eq_true, if_false]
    simp only [parseCase2, hnodoses]
    simp

/-- Witness for C2: at `"a"` the output is non-empty, and at the
heading-only input `"# T"` (no indentation, heading walk emits no
dose) the fallback returns the whole trimmed input as one dose. -/
theorem parseStructuredText_ne_nil_witness :
    parseStructuredText "a" ≠ [] ∧ parseStructuredText "# T" = ["# T"] :=
  ⟨parseStructuredText_ne_nil_of_trim_ne_empty.1 "a" (by decide),
   parseStructuredText_ne_nil_of_trim_ne_empty.2 "# T" (by decide) (by decide)
     (by decide)⟩

/-- Claim C8: for every input that is empty or whitespace only,
`parseStructuredText` returns the empty list. -/
theorem parseStructuredText_nil_of_trim_empty (text : String)
    (h : jsTrim text = "") : parseStructuredText text = [] := by
  unfold parseStructuredText
  simp [h]

/-- Witness for C8 at the concrete whitespace-only input `" \n "`. -/
theorem parseStructuredText_nil_witness : parseStructuredText " \n " = [] :=
  parseStructuredText_nil_of_trim_empty " \n " (by decide)

/-- The Markdown example of the spec (`# Econ` / `## Supply` / … /
`## Demand` with two bullet lines). -/
def econExample : String :=
  "# Econ\n## Supply\nPrices rise when supply falls.\n\n## Demand\n* more buyers\n* less buyers"

/-- Counterexample to claim C4: on the spec's Markdown example the
parser does NOT return the claimed two doses — an all-list-item block
is split into one dose per list line, so the `## Demand` block yields
two separate doses. -/
theorem econExample_not_two_doses :
    parseStructuredText econExample ≠
      ["Econ > Supply\n\nPrices rise when supply falls.",
       "Econ > Demand\n\n* more buyers\n* less buyers"] := by decide

/-- Claim C4 as amended: the spec's Markdown example decomposes into
three doses — the Supply paragraph dose, then one breadcrumb-prefixed
dose per bullet line of the Demand list. -/
theorem econExample_doses :
    parseStructuredText econExample =
      ["Econ > Supply\n\nPrices rise when supply falls.",
       "Econ > Demand\n\n* more buyers",
       "Econ > Demand\n\n* less buyers"] := by decide

/-- Claim C7: in PDF prose-block finalization, consecutive lines
`"exam-"` and `"ple text"` merge to exactly `"example text"`
(hyphen dropped, direct concatenation), and plain lines are joined by
a single space. -/
theorem finalizeBlock_hyphenation_repair :
    finalizeBlockText ["exam-", "ple text"] = "example text" ∧
    finalizeBlockText ["exam-", "ple text"] ≠ "exam- ple text" ∧
    finalizeBlockText ["exam-", "ple text"] ≠ "exam-ple text" ∧
    finalizeBlockText ["alpha beta", "gamma"] = "alpha beta gamma" := by
  decide

/-- Claim C5: an image paint whose resolved raster has a byte layout
other than 1, 3 or 4 bytes per pixel (here: 2 bytes per pixel, with a
positive pixel count) produces no image element, appends exactly one
warning naming the page number and the colorspace, and interpretation
of the remaining operators continues from that state. -/
theorem unsupported_image_paint (pageNum : Nat) (st : InterpState)
    (img : PdfRasterImage) (ops : List PdfOperator)
    (hlen : img.data.length = 2 * (img.width * img.height))
    (hpx : 0 < img.width * img.height) :
    interpStep pageNum st (.paintImage (some img)) =
      { st with warnings := st.warnings ++
          [unsupportedColorspaceWarning pageNum img.colorspaceName] } ∧
    (interpStep pageNum st (.paintImage (some img))).imageElements =
      st.imageElements ∧
    runInterp pageNum st (.paintImage (some img) :: ops) =
      runInterp pageNum
        { st with warnings := st.warnings ++
            [unsupportedColorspaceWarning pageNum img.colorspaceName] } ops := by
  have hnorm : normalizeRgba img.width img.height img.data = none := by
    unfold normalizeRgba
    rw [if_neg (by omega), if_neg (by omega), if_neg (by omega)]
  have hstep : interpStep pageNum st (.paintImage (some img)) =
      { st with warnings := st.warnings ++
          [unsupportedColorspaceWarning pageNum img.colorspaceName] } := by
    simp [interpStep, hnorm]
  exact ⟨hstep, by rw [hstep], by simp [runInterp, hstep]⟩

/-- Witness for C5: a 1x1 raster with 2 data bytes on page 7 yields no
image element and exactly the one warning naming page 7 and the
colorspace. -/
theorem unsupported_image_paint_witness :
    interpStep 7 ⟨[], identityMatrix, [], []⟩
        (.paintImage (some ⟨1, 1, [0, 0], some "Indexed"⟩)) =
      ⟨[], identityMatrix, [],
        ["Não foi possível processar uma imagem na página 7. O formato de cor (Indexed) não é suportado."]⟩ :=
  (unsupported_image_paint 7 ⟨[], identityMatrix, [], []⟩
    ⟨1, 1, [0, 0], some "Indexed"⟩ [] (by decide) (by decide)).1

/-- Claim C9: a `restore` executed on an empty transform-matrix stack
does not fail — it sets the current matrix to the 2x3 identity and
interpretation of all subsequent operators continues normally. -/
theorem restore_on_empty_stack (pageNum : Nat) (m : List ℚ)
    (es : List InterpImageElem) (ws : List String)
    (ops : List PdfOperator) :
    interpStep pageNum ⟨[], m, es, ws⟩ .restore =
      ⟨[], identityMatrix, es, ws⟩ ∧
    runInterp pageNum ⟨[], m, es, ws⟩ (.restore :: ops) =
      runInterp pageNum ⟨[], identityMatrix, es, ws⟩ ops := by
  have hstep : interpStep pageNum ⟨[], m, es, ws⟩ .restore =
      ⟨[], identityMatrix, es, ws⟩ := by
    simp [interpStep]
  exact ⟨hstep, by simp [runInterp, hstep]⟩

/-- Claim C10: a DOCX heading element whose text content trims to the
empty string leaves the walk state (heading stack and doses) entirely
unchanged, and the walk over the remaining elements proceeds from the
unchanged state. -/
theorem empty_docx_heading_skipped (st : DocxState) (level : Nat)
    (textContent : String) (rest : List DocxElement)
    (h : jsTrim textContent = "") :
    docxStep st (.heading level textContent) = st ∧
    (DocxElement.heading level textContent :: rest).foldl docxStep st =
      rest.foldl docxStep st := by
  have h1 : docxStep st (.heading level textContent) = st := by
    simp [docxStep, h]
  exact ⟨h1, by simp [List.foldl_cons, h1]⟩

/-- Witness for C10: a whitespace-only `H2` between a pushed `H1` and
a paragraph changes nothing — the stack and subsequent breadcrumbs
keep the prior heading. -/
theorem empty_docx_heading_skipped_witness :
    docxStep ⟨["d"], [⟨1, "T"⟩]⟩ (.heading 2 "   ") = ⟨["d"], [⟨1, "T"⟩]⟩ ∧
    (DocxElement.heading 2 "   " :: [DocxElement.para "x"]).foldl docxStep
        ⟨["d"], [⟨1, "T"⟩]⟩ =
      [DocxElement.para "x"].foldl docxStep ⟨["d"], [⟨1, "T"⟩]⟩ :=
  empty_docx_heading_skipped ⟨["d"], [⟨1, "T"⟩]⟩ 2 "   "
    [DocxElement.para "x"] (by decide)

/-! ## Heading-stack invariant (claim C3) -/

/-- Invariant of the PDF heading stack (array order, last entry = top
of stack): glyph heights strictly decrease from bottom to top. -/
def pdfStackInv (path : List PdfHeading) : Prop :=
  List.Chain' (fun a b => b.height < a.height) path

/-- Invariant of a level-based heading stack (array order): level
numbers strictly increase from bottom to top. -/
def levelStackInv (path : List LevelHeading) : Prop :=
  List.Chain' (fun a b => a.level < b.level) path

/-- The first element surviving a `dropWhile` fails the predicate. -/
theorem head?_dropWhile_not {α : Type} (p : α → Bool) :
    ∀ (l : List α) {y : α}, (l.dropWhile p).head? = some y → p y = false := by
  intro l
  induction l with
  | nil => intro y h; simp [List.dropWhile] at h
  | cons c rest ih =>
    intro y h
    rw [List.dropWhile_cons] at h
    split at h
    · exact ih h
    · next hc =>
      simp only [List.head?_cons, Option.some.injEq] at h
      subst h
      exact Bool.eq_false_iff.mpr hc

/-- Generic correctness of the `while (pred(top)) pop; push(x)`
heading-stack update over a stack kept in array order (last = top):
if the stack is a strict chain for `fun a b => R b a` and `x`
dominates (`R x y`) every entry failing the pop predicate, then the
updated stack is again a strict chain and `x` dominates every
surviving entry. -/
theorem stack_push_spec {α : Type} (R : α → α → Prop)
    (htrans : ∀ a b c, R a b → R b c → R a c)
    (p : α → Bool) (x : α) (hx : ∀ y, p y = false → R x y)
    (l : List α) (hInv : List.Chain' (fun a b => R b a) l) :
    List.Chain' (fun a b => R b a) ((l.reverse.dropWhile p).reverse ++ [x]) ∧
    ∀ e ∈ (l.reverse.dropWhile p).reverse, R x e := by
  have hr : List.Chain' R l.reverse := List.chain'_reverse.mpr hInv
  have hsuffix : List.IsSuffix (l.reverse.dropWhile p) l.reverse :=
    ⟨l.reverse.takeWhile p, List.takeWhile_append_dropWhile p l.reverse⟩
  have hsub : List.Sublist (l.reverse.dropWhile p) l.reverse :=
    List.IsSuffix.sublist hsuffix
  have hpairRev : List.Pairwise R l.reverse :=
    (@List.chain'_iff_pairwise _ R ⟨htrans⟩ _).mp hr
  have hpair : List.Pairwise R (l.reverse.dropWhile p) :=
    List.Pairwise.sublist hsub hpairRev
  have hd : List.Chain' R (l.reverse.dropWhile p) :=
    (@List.chain'_iff_pairwise _ R ⟨htrans⟩ _).mpr hpair
  constructor
  · rw [← List.reverse_cons, List.chain'_reverse]
    show List.Chain' R (x :: l.reverse.dropWhile p)
    refine List.chain'_cons'.mpr ⟨?_, hd⟩
    intro y hy
    exact hx y (head?_dropWhile_not p l.reverse (Option.mem_def.mp hy))
  · intro e he
    rw [List.mem_reverse] at he
    cases hdw : l.reverse.dropWhile p with
    | nil => rw [hdw] at he; simp at he
    | cons y ys =>
      rw [hdw] at he
      have hpy : p y = false :=
        head?_dropWhile_not p l.reverse (by rw [hdw]; rfl)
      have hxy : R x y := hx y hpy
      rcases List.mem_cons.mp he with rfl | hys
      · exact hxy
      · have hpc := hpair
        rw [hdw] at hpc
        exact htrans _ _ _ hxy ((List.pairwise_cons.mp hpc).1 e hys)

/-- `pdfHeadingPush` preserves the height invariant and pops exactly
the entries at height ≤ the incoming one: every surviving entry is
strictly taller. -/
theorem pdfHeadingPush_spec (path : List PdfHeading) (hgt : ℚ) (txt : String)
    (hInv : pdfStackInv path) :
    pdfStackInv (pdfHeadingPush path hgt txt) ∧
    ∀ e ∈ (pdfHeadingPush path hgt txt).dropLast, hgt < e.height := by
  unfold pdfStackInv at hInv
  have h := stack_push_spec (fun a b : PdfHeading => a.height < b.height)
    (fun _ _ _ hab hbc => lt_trans hab hbc)
    (fun y : PdfHeading => decide (y.height ≤ hgt)) (⟨hgt, txt⟩ : PdfHeading)
    (fun y hy => lt_of_not_le (of_decide_eq_false hy))
    path hInv
  refine ⟨h.1, ?_⟩
  rw [pdfHeadingPush, List.dropLast_concat]
  exact h.2

/-- `mdHeadingPush` preserves the level invariant and pops exactly the
entries at level ≥ the incoming one: every surviving entry is strictly
shallower. -/
theorem mdHeadingPush_spec (path : List LevelHeading) (lvl : Nat) (txt : String)
    (hInv : levelStackInv path) :
    levelStackInv (mdHeadingPush path lvl txt) ∧
    ∀ e ∈ (mdHeadingPush path lvl txt).dropLast, e.level < lvl := by
  unfold levelStackInv at hInv
  have h := stack_push_spec (fun a b : LevelHeading => b.level < a.level)
    (fun _ _ _ hab hbc => lt_trans hbc hab)
    (fun y : LevelHeading => decide (lvl ≤ y.level)) (⟨lvl, txt⟩ : LevelHeading)
    (fun y hy => lt_of_not_le (of_decide_eq_false hy))
    path hInv
  refine ⟨h.1, ?_⟩
  rw [mdHeadingPush, List.dropLast_concat]
  exact h.2

/-- `docxHeadingPush` preserves the level invariant and pops exactly
the entries at level ≥ the incoming one. -/
theorem docxHeadingPush_spec (path : List LevelHeading) (lvl : Nat)
    (txt : String) (hInv : levelStackInv path) :
    levelStackInv (docxHeadingPush path lvl txt) ∧
    ∀ e ∈ (docxHeadingPush path lvl txt).dropLast, e.level < lvl := by
  unfold levelStackInv at hInv
  have h := stack_push_spec (fun a b : LevelHeading => b.level < a.level)
    (fun _ _ _ hab hbc => lt_trans hbc hab)
    (fun y : LevelHeading => decide (lvl ≤ y.level)) (⟨lvl, txt⟩ : LevelHeading)
    (fun y hy => lt_of_not_le (of_decide_eq_false hy))
    path hInv
  refine ⟨h.1, ?_⟩
  rw [docxHeadingPush, List.dropLast_concat]
  exact h.2

/-- `finalizeBlock` never touches the heading stack. -/
theorem finalizeBlock_headingPath (st : PageState) :
    (finalizeBlock st).headingPath = st.headingPath := by
  simp only [finalizeBlock]
  split_ifs <;> rfl

/-- Each PDF element step either leaves the heading stack unchanged or
performs one `pdfHeadingPush`. -/
theorem processElement_headingPath (st : PageState) (e : PageElement) :
    (processElement st e).headingPath = st.headingPath ∨
    ∃ hgt txt, (processElement st e).headingPath =
      pdfHeadingPush st.headingPath hgt txt := by
  cases e with
  | text t x y hgt fn =>
    simp only [processElement]
    split_ifs with h1 h2
    · right
      exact ⟨hgt, jsTrim t, by rw [finalizeBlock_headingPath]⟩
    · left; exact finalizeBlock_headingPath st
    · left; rfl
  | image dataUrl y w hgt =>
    left; exact finalizeBlock_headingPath st

/-- `processContentBlock` never touches the heading stack. -/
theorem processContentBlock_headingPath (st : MdState) :
    (processContentBlock st).headingPath = st.headingPath := by
  simp only [processContentBlock]
  split_ifs <;> rfl

/-- Each Markdown line step either leaves the heading stack unchanged
or performs one `mdHeadingPush`. -/
theorem mdStep_headingPath (st : MdState) (line : String) :
    (mdStep st line).headingPath = st.headingPath ∨
    ∃ lvl txt, (mdStep st line).headingPath =
      mdHeadingPush st.headingPath lvl txt := by
  simp only [mdStep]
  split_ifs with h1
  · right
    exact ⟨getHeadingLevel line, stripHeadingMark line,
      by rw [processContentBlock_headingPath]⟩
  · left; rfl

/-- `docxCreateDose` never touches the heading stack. -/
theorem docxCreateDose_headingPath (st : DocxState) (content : String) :
    (docxCreateDose st content).headingPath = st.headingPath := by
  simp only [docxCreateDose]
  split_ifs <;> rfl

/-- Each DOCX walk step either leaves the heading stack unchanged or
performs one `docxHeadingPush`. -/
theorem docxStep_headingPath (st : DocxState) (el : DocxElement) :
    (docxStep st el).headingPath = st.headingPath ∨
    ∃ lvl txt, (docxStep st el).headingPath =
      docxHeadingPush st.headingPath lvl txt := by
  cases el with
  | heading lvl tc =>
    simp only [docxStep]
    split_ifs with h1
    · left; rfl
    · right; exact ⟨lvl, jsTrim tc, rfl⟩
  | para t => left; exact docxCreateDose_headingPath st (jsTrim t)
  | unorderedList items =>
    simp only [docxStep]
    split_ifs
    · left; exact docxCreateDose_headingPath st _
    · left; rfl
  | orderedList items =>
    simp only [docxStep]
    split_ifs
    · left; exact docxCreateDose_headingPath st _
    · left; rfl
  | image src =>
    simp only [docxStep]
    split_ifs
    · left; exact docxCreateDose_headingPath st _
    · left; rfl
  | other t => left; exact docxCreateDose_headingPath st (jsTrim t)

/-- The PDF element fold preserves the heading-stack invariant. -/
theorem pdf_fold_inv (es : List PageElement) :
    ∀ st : PageState, pdfStackInv st.headingPath →
      pdfStackInv ((es.foldl processElement st).headingPath) := by
  induction es with
  | nil => intro st h; exact h
  | cons e rest ih =>
    intro st h
    rw [List.foldl_cons]
    apply ih
    rcases processElement_headingPath st e with heq | ⟨hgt, txt, heq⟩
    · rw [heq]; exact h
    · rw [heq]; exact (pdfHeadingPush_spec st.headingPath hgt txt h).1

/-- The Markdown line fold preserves the heading-stack invariant. -/
theorem md_fold_inv (lines : List String) :
    ∀ st : MdState, levelStackInv st.headingPath →
      levelStackInv ((lines.foldl mdStep st).headingPath) := by
  induction lines with
  | nil => intro st h; exact h
  | cons line rest ih =>
    intro st h
    rw [List.foldl_cons]
    apply ih
    rcases mdStep_headingPath st line with heq | ⟨lvl, txt, heq⟩
    · rw [heq]; exact h
    · rw [heq]; exact (mdHeadingPush_spec st.headingPath lvl txt h).1

/-- The DOCX walk fold preserves the heading-stack invariant. -/
theorem docx_fold_inv (els : List DocxElement) :
    ∀ st : DocxState, levelStackInv st.headingPath →
      levelStackInv ((els.foldl docxStep st).headingPath) := by
  induction els with
  | nil => intro st h; exact h
  | cons el rest ih =>
    intro st h
    rw [List.foldl_cons]
    apply ih
    rcases docxStep_headingPath st el with heq | ⟨lvl, txt, heq⟩
    · rw [heq]; exact h
    · rw [heq]; exact (docxHeadingPush_spec st.headingPath lvl txt h).1

/-- Claim C3: in all three heading-stack pipelines (PDF with
height-based levels, Markdown and DOCX with explicit level numbers)
the stack entries are strictly ordered in nesting depth (strictly
decreasing glyph height resp. strictly increasing level number, bottom
to top), a heading update leaves every entry surviving below the newly
pushed one strictly deeper-dominated (height > the new height, resp.
level < the new level), and the invariant holds at every point of each
pipeline's processing fold started from the empty stack. -/
theorem heading_stack_invariant :
    (∀ (path : List PdfHeading) (hgt : ℚ) (txt : String), pdfStackInv path →
        pdfStackInv (pdfHeadingPush path hgt txt) ∧
        ∀ e ∈ (pdfHeadingPush path hgt txt).dropLast, hgt < e.height) ∧
    (∀ (path : List LevelHeading) (lvl : Nat) (txt : String),
        levelStackInv path →
        levelStackInv (mdHeadingPush path lvl txt) ∧
        ∀ e ∈ (mdHeadingPush path lvl txt).dropLast, e.level < lvl) ∧
    (∀ (path : List LevelHeading) (lvl : Nat) (txt : String),
        levelStackInv path →
        levelStackInv (docxHeadingPush path lvl txt) ∧
        ∀ e ∈ (docxHeadingPush path lvl txt).dropLast, e.level < lvl) ∧
    (∀ es : List PageElement,
        pdfStackInv ((es.foldl processElement ⟨[], [], none, []⟩).headingPath)) ∧
    (∀ lines : List String,
        levelStackInv ((lines.foldl mdStep ⟨[], [], []⟩).headingPath)) ∧
    (∀ els : List DocxElement,
        levelStackInv ((els.foldl docxStep ⟨[], []⟩).headingPath)) :=
  ⟨pdfHeadingPush_spec, mdHeadingPush_spec, docxHeadingPush_spec,
   fun es => pdf_fold_inv es ⟨[], [], none, []⟩ (List.chain'_nil),
   fun lines => md_fold_inv lines ⟨[], [], []⟩ (List.chain'_nil),
   fun els => docx_fold_inv els ⟨[], []⟩ (List.chain'_nil)⟩

/-- Witness for C3 at concrete one-entry stacks: a lower heading push
under an open taller/shallower heading keeps the invariant. -/
theorem heading_stack_invariant_witness :
    pdfStackInv (pdfHeadingPush [⟨20, "A"⟩] 10 "B") ∧
    levelStackInv (mdHeadingPush [⟨1, "Econ"⟩] 2 "Supply") ∧
    levelStackInv (docxHeadingPush [⟨1, "T"⟩] 2 "S") :=
  ⟨(heading_stack_invariant.1 [⟨20, "A"⟩] 10 "B" (List.chain'_singleton _)).1,
   (heading_stack_invariant.2.1 [⟨1, "Econ"⟩] 2 "Supply"
     (List.chain'_singleton _)).1,
   (heading_stack_invariant.2.2.1 [⟨1, "T"⟩] 2 "S"
     (List.chain'_singleton _)).1⟩

/-! ## Page-local dose accumulation (claim C1) -/

/-- `finalizeBlock` only appends to the document-wide dose list: the
result from doses `d` is the result from empty doses with `d`
prepended. -/
theorem finalizeBlock_doses (hp : List PdfHeading) (cb : List String)
    (ll : Option (ℚ × ℚ)) (d : List String) :
    finalizeBlock ⟨hp, cb, ll, d⟩ =
      { finalizeBlock ⟨hp, cb, ll, []⟩ with
        doses := d ++ (finalizeBlock ⟨hp, cb, ll, []⟩).doses } := by
  simp only [finalizeBlock]
  split_ifs <;> simp

/-- `processElement` only appends to the document-wide dose list. -/
theorem processElement_doses (hp : List PdfHeading) (cb : List String)
    (ll : Option (ℚ × ℚ)) (d : List String) (e : PageElement) :
    processElement ⟨hp, cb, ll, d⟩ e =
      { processElement ⟨hp, cb, ll, []⟩ e with
        doses := d ++ (processElement ⟨hp, cb, ll, []⟩ e).doses } := by
  cases e with
  | text t x y hgt fn =>
    simp only [processElement]
    split_ifs
    · rw [finalizeBlock_doses hp cb ll d]
    · rw [finalizeBlock_doses hp cb ll d]
    · simp
  | image dataUrl y w hgt =>
    simp only [processElement]
    rw [finalizeBlock_doses hp cb ll d]
    simp [List.append_assoc]

/-- The element fold only appends to the document-wide dose list. -/
theorem foldl_processElement_doses (es : List PageElement) :
    ∀ (hp : List PdfHeading) (cb : List String) (ll : Option (ℚ × ℚ))
      (d : List String),
      es.foldl processElement ⟨hp, cb, ll, d⟩ =
        { es.foldl processElement ⟨hp, cb, ll, []⟩ with
          doses := d ++ (es.foldl processElement ⟨hp, cb, ll, []⟩).doses } := by
  induction es with
  | nil => intro hp cb ll d; simp
  | cons e rest ih =>
    intro hp cb ll d
    rw [List.foldl_cons, List.foldl_cons,
      processElement_doses hp cb ll d e]
    rcases hpe : processElement ⟨hp, cb, ll, []⟩ e with ⟨hp2, cb2, ll2, d2⟩
    simp only [hpe]
    rw [show ({ (⟨hp2, cb2, ll2, d2⟩ : PageState) with
          doses := d ++ (⟨hp2, cb2, ll2, d2⟩ : PageState).doses }) =
        (⟨hp2, cb2, ll2, d ++ d2⟩ : PageState) from rfl,
      ih hp2 cb2 ll2 (d ++ d2), ih hp2 cb2 ll2 d2]
    simp

/-- A page's dose contribution does not depend on the doses
accumulated by earlier pages. -/
theorem processPdfPage_doses (d : List String) (es : List PageElement) :
    processPdfPage d es = d ++ processPdfPage [] es := by
  unfold processPdfPage
  rw [foldl_processElement_doses (sortDescY es) [] [] none d]
  rcases hfold : (sortDescY es).foldl processElement ⟨[], [], none, []⟩ with
    ⟨hp2, cb2, ll2, d2⟩
  show (finalizeBlock ⟨hp2, cb2, ll2, d ++ d2⟩).doses =
      d ++ (finalizeBlock ⟨hp2, cb2, ll2, d2⟩).doses
  rw [finalizeBlock_doses hp2 cb2 ll2 (d ++ d2),
    finalizeBlock_doses hp2 cb2 ll2 d2]
  simp

/-- Counterexample to claim C1: the heading stack IS re-initialized
for every page.  On page 1 the line `"Intro"` is recognized as a
heading and pushed, yet the first block of page 2 is emitted WITHOUT
the `"Intro"` breadcrumb. -/
theorem pdf_heading_stack_reset_counterexample :
    ((sortDescY [PageElement.text "Intro" 10 100 12 none]).foldl processElement
        ⟨[], [], none, []⟩).headingPath = [⟨12, "Intro"⟩] ∧
    extractTextFromPdf
        [[PageElement.text "Intro" 10 100 12 none],
         [PageElement.text "Body content." 10 100 12 none]] =
      ["Body content."] ∧
    "Body content." ≠ "Intro\n\nBody content." := by decide

/-- Claim C1 as amended: the heading stack is reset between pages —
each page's doses are computed from a fresh (empty) heading stack, so
a page's dose contribution is independent of all earlier pages and
headings never carry across a page boundary. -/
theorem pdf_page_doses_independent (pages : List (List PageElement))
    (p : List PageElement) :
    extractTextFromPdf (pages ++ [p]) =
      extractTextFromPdf pages ++ processPdfPage [] p := by
  unfold extractTextFromPdf
  rw [List.foldl_append]
  simp only [List.foldl_cons, List.foldl_nil]
  exact processPdfPage_doses (pages.foldl processPdfPage []) p

/-! ## DOCX raw-text fallback (claim C6) -/

/-- A list of whitespace characters trims to the empty list. -/
theorem trimChars_nil_of_all_ws (l : List Char) (h : l.all wsChar) :
    trimChars l = [] := by
  unfold trimChars
  have h1 : l.dropWhile wsChar = [] :=
    List.dropWhile_eq_nil_iff.mpr (fun x hx => List.all_eq_true.mp h x hx)
  rw [h1]
  rfl

/-- A list that trims to the empty list is all whitespace. -/
theorem all_ws_of_trimChars_nil (l : List Char) (h : trimChars l = []) :
    l.all wsChar = true := by
  unfold trimChars at h
  rw [List.reverse_eq_nil_iff] at h
  have h2 : ∀ x ∈ (l.dropWhile wsChar).reverse, wsChar x :=
    List.dropWhile_eq_nil_iff.mp h
  rw [List.all_eq_true]
  intro x hx
  rw [← List.takeWhile_append_dropWhile wsChar l] at hx
  rcases List.mem_append.mp hx with h4 | h4
  · exact List.mem_takeWhile_imp h4
  · exact h2 x (List.mem_reverse.mpr h4)

/-- If every piece of a `"\n\n"` split is all-whitespace, so is the
whole input (with the pending accumulator). -/
theorem splitNNAux_all_ws :
    ∀ (l acc : List Char),
      (∀ p ∈ splitNNAux l acc, p.all wsChar) →
      (acc.reverse ++ l).all wsChar := by
  intro l acc
  induction l, acc using splitNNAux.induct with
  | case1 acc =>
    intro h
    simpa using h acc.reverse (by simp [splitNNAux])
  | case2 c acc =>
    intro h
    have := h (c :: acc).reverse (by simp [splitNNAux])
    simpa [List.reverse_cons] using this
  | case3 c c2 rest acc hnn ih =>
    intro h
    rw [splitNNAux] at h
    rw [if_pos hnn] at h
    obtain ⟨hc, hc2⟩ := hnn
    subst hc; subst hc2
    have h1 : acc.reverse.all wsChar := h acc.reverse (by simp)
    have h2 : (([] : List Char).reverse ++ rest).all wsChar :=
      ih (fun p hp => h p (by simp [hp]))
    simp only [List.reverse_nil, List.nil_append] at h2
    simp [List.all_append, h1, h2, wsChar]
  | case4 c c2 rest acc hnn ih =>
    intro h
    rw [splitNNAux] at h
    rw [if_neg hnn] at h
    have h2 := ih h
    simpa [List.reverse_cons, List.append_assoc] using h2

/-- A string with non-empty trimmed form keeps at least one non-blank
piece after the `"\n\n"` split-and-filter of the DOCX fallback. -/
theorem splitNN_filter_ne_nil (s : String) (h : jsTrim s ≠ "") :
    (splitNN s).filter (fun p => jsTrim p ≠ "") ≠ [] := by
  intro hfil
  apply h
  have hall : ∀ p ∈ splitNN s, jsTrim p = "" := by
    intro p hp
    have hnot := List.filter_eq_nil_iff.mp hfil p hp
    simpa using hnot
  have hallc : ∀ q ∈ splitNNAux s.toList [], q.all wsChar := by
    intro q hq
    have hmem : String.mk q ∈ splitNN s := List.mem_map_of_mem _ hq
    have htr : jsTrim (String.mk q) = "" := hall _ hmem
    have hdata : trimChars q = [] := by
      have := congrArg String.data htr
      simpa [jsTrim] using this
    exact all_ws_of_trimChars_nil q hdata
  have hws : (([] : List Char).reverse ++ s.toList).all wsChar :=
    splitNNAux_all_ws s.toList [] hallc
  have h2 : trimChars s.toList = [] :=
    trimChars_nil_of_all_ws _ (by simpa using hws)
  show jsTrim s = ""
  unfold jsTrim
  rw [h2]

/-- Counterexample to claim C6: the raw-text fallback is guarded by
`doses.length === 0 && warnings.length === 0`.  With a conversion
warning present, a document with zero structured doses and non-empty
raw text `"a"` is NOT split into fallback doses — the result keeps an
empty dose list (the claimed fallback would have produced `["a"]`). -/
theorem docx_no_fallback_under_warnings :
    extractTextFromDocx [] "a" ["w"] = ([], ["w"]) ∧
    (splitNN "a").filter (fun p => jsTrim p ≠ "") = ["a"] := by decide

/-- Claim C6 as amended: when the structured walk yields zero doses,
the conversion produced no warnings, and the body's raw text is
non-blank, `extractTextFromDocx` falls back to splitting the raw text
on `"\n\n"` boundaries, returns the non-blank pieces as doses, and
adds the no-clear-structure warning. -/
theorem docx_raw_text_fallback (els : List DocxElement) (bodyText : String)
    (hdoses : (els.foldl docxStep ⟨[], []⟩).doses = [])
    (htext : jsTrim bodyText ≠ "") :
    extractTextFromDocx els bodyText [] =
      ((splitNN bodyText).filter (fun p => jsTrim p ≠ ""),
        [noStructureWarning]) := by
  have h3 : 0 < ((splitNN bodyText).filter (fun p => jsTrim p ≠ "")).length :=
    List.length_pos.mpr (splitNN_filter_ne_nil bodyText htext)
  simp only [extractTextFromDocx]
  rw [if_pos ⟨by rw [hdoses]; rfl, rfl⟩, if_pos htext, if_pos h3,
    List.nil_append]

/-- Witness for C6 (amended) at the concrete input `"a\n\nb"` with an
empty walk and no warnings. -/
theorem docx_raw_text_fallback_witness :
    extractTextFromDocx [] "a\n\nb" [] = (["a", "b"], [noStructureWarning]) := by
  rw [docx_raw_text_fallback [] "a\n\nb" (by decide) (by decide)]
  decide

end Estudos
